import Mathlib

/-!
# Verification of the NIMA result-extraction and reporting pipeline

Shallow embedding of the result pipeline of the `Rate_picture_aesthetics`
repository: the output parser (`parse_results.py`), the statistics engine and
report renderer (`visualize_results.py`), and the result store (the JSON
writers in `parse_results.py` / `predict_script.py` and the reader in
`visualize_results.py`).

Strings are modelled as `List Char`, Python floats as exact rationals `ℚ`
(the claims under study are about data flow and definedness, not rounding),
and fallible Python code — code that can raise an uncaught exception — as
`Except`-valued functions.
-/

namespace NIMA

/-! ## Character classes of the regular expressions (ASCII reading) -/

/-- Characters matched by the regex class `\w`. -/
def isWordChar (c : Char) : Bool :=
  c.isAlphanum || c = '_'

/-- Characters matched by the regex class `\s`. -/
def isSpaceChar (c : Char) : Bool :=
  c = ' ' || c = '\t' || c = '\n' || c = '\r' || c = '\x0b' || c = '\x0c'

/-- Characters matched by the image-name class `[\w\.\-]` of `image_pattern`. -/
def isImageChar (c : Char) : Bool :=
  isWordChar c || c = '.' || c = '-'

/-- Characters matched by the payload class `[\d\.\s,]` of `score_pattern`. -/
def isScoreChar (c : Char) : Bool :=
  c.isDigit || c = '.' || isSpaceChar c || c = ','

/-! ## The three regex searches of `parse_results.py`

`re.search` tries every start position from the left; at a given position each
pattern is a fixed literal, then a greedy nonempty character-class run, then
(for two of the patterns) a further literal.  Because the character classes
exclude the first character of the trailing literal, greedy matching with
backtracking is equivalent to "maximal run, then the literal must follow". -/

/-- Try `model_pattern = "===== Evaluating (\w+) quality"` at the start of
`cs`; return the captured group. -/
def matchModelAt (cs : List Char) : Option (List Char) :=
  let lit := ("===== Evaluating ").toList
  if lit.isPrefixOf cs then
    let rest := cs.drop lit.length
    let w := rest.takeWhile isWordChar
    if w.isEmpty then none
    else if (" quality").toList.isPrefixOf (rest.drop w.length) then some w
    else none
  else none

/-- Try `image_pattern = "Evaluating: ([\w\.\-]+)"` at the start of `cs`. -/
def matchImageAt (cs : List Char) : Option (List Char) :=
  let lit := ("Evaluating: ").toList
  if lit.isPrefixOf cs then
    let w := (cs.drop lit.length).takeWhile isImageChar
    if w.isEmpty then none else some w
  else none

/-- Try `score_pattern = "Predicted score distribution: \[([\d\.\s,]+)\]"` at
the start of `cs`; return the captured group (the bracket contents). -/
def matchScoreAt (cs : List Char) : Option (List Char) :=
  let lit := ("Predicted score distribution: [").toList
  if lit.isPrefixOf cs then
    let rest := cs.drop lit.length
    let w := rest.takeWhile isScoreChar
    if w.isEmpty then none
    else
      match rest.drop w.length with
      | ']' :: _ => some w
      | _ => none
  else none

/-- `re.search`: try the matcher at each start position, leftmost wins. -/
def reSearch {α : Type} (m : List Char → Option α) : List Char → Option α
  | [] => m []
  | c :: cs =>
    match m (c :: cs) with
    | some r => some r
    | none => reSearch m (cs)

/-- `re.search(model_pattern, line)`, returning `group(1)`. -/
def searchModel (line : List Char) : Option (List Char) :=
  reSearch matchModelAt line

/-- `re.search(image_pattern, line)`, returning `group(1)`. -/
def searchImage (line : List Char) : Option (List Char) :=
  reSearch matchImageAt line

/-- `re.search(score_pattern, line)`, returning `group(1)`. -/
def searchScore (line : List Char) : Option (List Char) :=
  reSearch matchScoreAt line

/-! ## Python string helpers -/

/-- Python `str.split(sep)` for a one-character separator. -/
def splitOnChar (sep : Char) : List Char → List (List Char)
  | [] => [[]]
  | c :: cs =>
    if c = sep then [] :: splitOnChar sep cs
    else
      match splitOnChar sep cs with
      | [] => [[c]]
      | l :: ls => (c :: l) :: ls

/-- Python `str.strip()`. -/
def pyStrip (l : List Char) : List Char :=
  ((l.dropWhile isSpaceChar).reverse.dropWhile isSpaceChar).reverse

/-- `str.lower()` applied to a captured `\w+` group. -/
def strLower (l : List Char) : List Char :=
  l.map Char.toLower

/-- Numeric value of a digit string (most significant first). -/
def digitsVal (l : List Char) : Nat :=
  l.foldl (fun n c => 10 * n + (c.toNat - 48)) 0

/-- Python `float(t)` restricted to the characters a stripped score-payload
token can contain (digits, dots, interior whitespace).  `none` models the
`ValueError` that `float` raises on a token that is not numeric. -/
def pyFloat (t : List Char) : Option ℚ :=
  if t.isEmpty then none
  else if !(t.all fun c => c.isDigit || c = '.') then none
  else if !(t.any Char.isDigit) then none
  else if 2 ≤ t.count '.' then none
  else
    let ip := t.takeWhile (fun c => c ≠ '.')
    let fp := (t.dropWhile (fun c => c ≠ '.')).drop 1
    some ((digitsVal ip : ℚ) + (digitsVal fp : ℚ) / ((10 : ℚ) ^ fp.length))

/-- `[float(s.strip()) for s in score_str.split(',')]`: `none` models the
uncaught `ValueError` when some token is not numeric. -/
def parseScores (payload : List Char) : Option (List ℚ) :=
  (splitOnChar ',' payload).mapM (fun t => pyFloat (pyStrip t))

/-! ## Nested string-keyed mappings (Python `dict` / `defaultdict(dict)`)

A `dict` is modelled as an association list without duplicate keys:
assignment to a present key replaces its value in place, assignment to an
absent key appends. -/

/-- `d[k] = v` on a `dict`. -/
def setEntry {κ ν : Type} [DecidableEq κ] : List (κ × ν) → κ → ν → List (κ × ν)
  | [], k, v => [(k, v)]
  | (k0, v0) :: rest, k, v =>
    if k0 = k then (k, v) :: rest else (k0, v0) :: setEntry rest k v

/-- `d[k1][k2] = v` on a `defaultdict(dict)` (also Python's explicit
"create the inner dict if absent, then assign" idiom). -/
def setNested {κ1 κ2 ν : Type} [DecidableEq κ1] [DecidableEq κ2] :
    List (κ1 × List (κ2 × ν)) → κ1 → κ2 → ν → List (κ1 × List (κ2 × ν))
  | [], k1, k2, v => [(k1, [(k2, v)])]
  | (k0, ms) :: rest, k1, k2, v =>
    if k0 = k1 then (k0, setEntry ms k2 v) :: rest
    else (k0, ms) :: setNested rest k1 k2 v

/-! ## The output parser (`parse_results` of `parse_results.py`) -/

/-- The parsed results: image name to model variant to distribution. -/
abbrev Results := List (List Char × List (List Char × List ℚ))

/-- An uncaught Python exception escaping `parse_results`. -/
inductive ParseCrash where
  /-- `float()` raised `ValueError` on a payload token. -/
  | valueError
  deriving DecidableEq

/-- The state carried across lines: accumulated results, `current_image`,
and `current_model`. -/
structure PState where
  results : Results
  currentImage : Option (List Char)
  currentModel : Option (List Char)
  deriving DecidableEq

/-- The initial parser state (`results = {}`, both cursors `None`). -/
def initState : PState := ⟨[], none, none⟩

/-- One iteration of the `for line in output_text.split('\n')` loop. -/
def processLine (st : PState) (line : List Char) : Except ParseCrash PState :=
  match searchModel line with
  | some w => .ok { st with currentModel := some (strLower w) }
  | none =>
    match searchImage line with
    | some name => .ok { st with currentImage := some name }
    | none =>
      match searchScore line with
      | some payload =>
        match st.currentImage, st.currentModel with
        | some img, some model =>
          match parseScores payload with
          | some scores =>
            .ok { st with results := setNested st.results img model scores }
          | none => .error .valueError
        | _, _ => .ok st
      | none => .ok st

/-- The loop over all lines. -/
def processLines : PState → List (List Char) → Except ParseCrash PState
  | st, [] => .ok st
  | st, l :: ls =>
    match processLine st l with
    | .ok st1 => processLines st1 ls
    | .error e => .error e

/-- `parse_results(output_text)` of `parse_results.py`. -/
def parse_results (text : List Char) : Except ParseCrash Results :=
  (processLines initState (splitOnChar '\n' text)).map PState.results

/-- Join lines with a newline separator (inverse of the split performed by
`parse_results`, for stating theorems over line lists). -/
def joinLines : List (List Char) → List Char
  | [] => []
  | [l] => l
  | l :: l2 :: ls => l ++ '\n' :: joinLines (l2 :: ls)

/-! ## The statistics engine (`visualize_results.py`) -/

/-- `np.arange(1, 11)`: the ranks `1..10` of the score scale. -/
def ranks : List ℚ :=
  (List.range 10).map (fun i => (i : ℚ) + 1)

/-- `calculate_mean_score(scores) = np.sum(scores * np.arange(1, 11))`.
(`predict_script.py` computes its `mean_score` with the same expression.) -/
def calculate_mean_score (scores : List ℚ) : ℚ :=
  (List.zipWith (fun s r => s * r) scores ranks).sum

/-- The argument of the square root in `calculate_std_score`:
`np.sum(score_array * np.square(np.arange(1, 11) - mean))`. -/
def calculate_variance (scores : List ℚ) : ℚ :=
  (List.zipWith (fun s r => s * (r - calculate_mean_score scores) ^ 2) scores ranks).sum

/-- `calculate_std_score(scores) = np.sqrt(np.sum(scores * (arange(1,11) - mean)^2))`.
(`Real.sqrt` models the floating-point square root.) -/
noncomputable def calculate_std_score (scores : List ℚ) : ℝ :=
  Real.sqrt ((calculate_variance scores : ℚ) : ℝ)

/-! ## The report renderer (`visualize_image` of `visualize_results.py`)

The renderer is modelled by the data it draws, abstracting the matplotlib
calls: which panels the figure contains, the numbers displayed in the text
overlay, and whether `plt.savefig` writes the artifact file. -/

/-- `plot_score_distribution` computes and displays `(mean, std)` of one
distribution panel. -/
noncomputable def plot_score_distribution (scores : List ℚ) : ℝ × ℝ :=
  (((calculate_mean_score scores : ℚ) : ℝ), calculate_std_score scores)

/-- The content `visualize_image` draws into the figure, by branch. -/
inductive FigContent where
  /-- Both variants present: two panels plus the combined overall score. -/
  | bothPanels (aesMean aesStd techMean techStd overall : ℝ)
  /-- Only the aesthetic variant present. -/
  | aestheticOnly (aesMean aesStd : ℝ)
  /-- Only the technical variant present. -/
  | technicalOnly (techMean techStd : ℝ)
  /-- Neither variant present: no branch of `visualize_image` runs, the
  figure stays empty. -/
  | emptyFigure

/-- `visualize_image(image_path, aesthetic_scores, technical_scores)`:
returns the figure content and whether an artifact file was written
(`plt.savefig` runs unconditionally at the end of the function). -/
noncomputable def visualize_image (aesthetic technical : Option (List ℚ)) :
    FigContent × Bool :=
  match aesthetic, technical with
  | some a, some t =>
    let pa := plot_score_distribution a
    let pt := plot_score_distribution t
    (.bothPanels pa.1 pa.2 pt.1 pt.2 ((pa.1 + pt.1) / 2), true)
  | some a, none =>
    let pa := plot_score_distribution a
    (.aestheticOnly pa.1 pa.2, true)
  | none, some t =>
    let pt := plot_score_distribution t
    (.technicalOnly pt.1 pt.2, true)
  | none, none => (.emptyFigure, true)

/-- The score stated by the text overlay of the figure: the overall score
when both variants are present, the single variant's mean otherwise, nothing
on an empty figure. -/
def shownScore : FigContent → Option ℝ
  | .bothPanels _ _ _ _ overall => some overall
  | .aestheticOnly m _ => some m
  | .technicalOnly m _ => some m
  | .emptyFigure => none

/-! ## The result store

Writers: `save_results` of `parse_results.py` (batch path: one JSON document
per image, mapping variant names to distributions) and the result block of
`predict_script.py` (single-image path: one flattened document per
(image, variant) pair).  Reader: `load_results` of `visualize_results.py`.

A JSON value is modelled by the shapes these documents contain; a persisted
file is `none` when `json.load` cannot decode it. -/

/-- JSON values appearing in persisted result documents. -/
inductive JVal where
  /-- A JSON string. -/
  | jstr (s : List Char)
  /-- A JSON number. -/
  | jnum (q : ℚ)
  /-- A JSON array of numbers (a serialized distribution). -/
  | jarr (qs : List ℚ)
  deriving DecidableEq

/-- A JSON document: an object, as a key-value list. -/
abbrev JObj := List (List Char × JVal)

/-- A file in the results directory: `none` models a file that `json.load`
fails to decode. -/
abbrev JFile := Option JObj

/-- `save_results(results)` of `parse_results.py`: one document per image,
mapping each variant name directly to its distribution.  (File names and the
directory side effect are irrelevant to the claims and omitted.) -/
def save_results (results : Results) : List JFile :=
  results.map (fun p => some (p.2.map (fun q => (q.1, JVal.jarr q.2))))

/-- The document `predict_script.py` writes for one (image, variant) pair:
`{"image": ..., "model_type": ..., "mean_score": ..., "scores": ...}`.
Its `mean_score` is computed by the same expression as
`calculate_mean_score`. -/
def predict_write (image mtype : List Char) (scores : List ℚ) : JFile :=
  some [(("image").toList, JVal.jstr image),
        (("model_type").toList, JVal.jstr mtype),
        (("mean_score").toList, JVal.jnum (calculate_mean_score scores)),
        (("scores").toList, JVal.jarr scores)]

/-- An uncaught Python exception escaping `load_results`. -/
inductive LoadCrash where
  /-- `json.load` raised on an undecodable file. -/
  | jsonDecode
  /-- A `data[...]` subscript raised `KeyError` for an absent field. -/
  | keyError
  deriving DecidableEq

/-- Python `data[k]` on a decoded document, as an optional lookup. -/
def getField (data : JObj) (k : List Char) : Option JVal :=
  (data.find? (fun p => p.1 == k)).map Prod.snd

/-- What the reader aggregates: `results[data['image']][data['model_type']]
= data['scores']`, the keys being whatever JSON values those fields held. -/
abbrev LoadedResults := List (JVal × List (JVal × JVal))

/-- The unconditional part of the loop body of `load_results`: read the
`image`, `model_type` and `scores` fields and store the entry. -/
def loadBody (data : JObj) (acc : LoadedResults) : Except LoadCrash LoadedResults :=
  match getField data (("image").toList) with
  | none => .error .keyError
  | some imageName =>
    match getField data (("model_type").toList) with
    | none => .error .keyError
    | some mt =>
      match getField data (("scores").toList) with
      | none => .error .keyError
      | some sc => .ok (setNested acc imageName mt sc)

/-- One iteration of the `for json_file in json_files` loop of
`load_results`, including the model-type filter
(`if model_type != 'both' and data['model_type'] != model_type: continue`). -/
def loadOne (mtype : List Char) (acc : LoadedResults) (file : JFile) :
    Except LoadCrash LoadedResults :=
  match file with
  | none => .error .jsonDecode
  | some data =>
    if mtype ≠ ("both").toList then
      match getField data (("model_type").toList) with
      | none => .error .keyError
      | some mt =>
        if mt ≠ JVal.jstr mtype then .ok acc
        else loadBody data acc
    else loadBody data acc

/-- The loop over all files. -/
def loadAll (mtype : List Char) : LoadedResults → List JFile → Except LoadCrash LoadedResults
  | acc, [] => .ok acc
  | acc, f :: fs =>
    match loadOne mtype acc f with
    | .ok acc1 => loadAll mtype acc1 fs
    | .error e => .error e

/-- `load_results(results_dir, model_type)` of `visualize_results.py`,
taking the decoded (or undecodable) files of the results directory. -/
def load_results (files : List JFile) (mtype : List Char) :
    Except LoadCrash LoadedResults :=
  loadAll mtype [] files

/-! ## Concrete data used to settle the claims -/

/-- The uniform distribution `[0.1, ..., 0.1]`. -/
def uniformDist : List ℚ := List.replicate 10 (1/10)

/-- A batch-path result set: one image with one aesthetic distribution. -/
def batchResults : Results :=
  [(("photo1.jpg").toList, [(("aesthetic").toList, uniformDist)])]

/-- A decodable single-image-path record. -/
def goodFile : JFile :=
  predict_write (("photo1.jpg").toList) (("aesthetic").toList) uniformDist

deriving instance DecidableEq for Except

section Theorems

attribute [local semireducible] Rat.add Rat.mul Rat.inv Rat.sub Rat.ofScientific

/-! ## C1: the round trip through the result store -/

/-- C1 counterexample. The claim says the reader accepts records of either
granularity, and that a batch-path round trip yields the written
distributions back.  In fact a document written by the batch path has no
`image` (or `model_type`) field, so `data['image']` raises `KeyError` and the
load fails instead of returning the written distribution. -/
theorem batch_roundtrip_counterexample :
    load_results (save_results batchResults) (("both").toList) = .error .keyError := by
  decide

/-- C1 (amended): the round trip holds for the single-image write path.  A
record written by `predict_script.py` loads back (with the filter `both`, or
with the filter equal to its own variant) to exactly the written distribution
under the same `model_variant` key.  Batch-path documents are not decodable
by the reader (see the counterexample), so only the flattened granularity is
accepted. -/
theorem single_image_roundtrip (img mt : List Char) (scores : List ℚ) :
    load_results [predict_write img mt scores] (("both").toList)
      = .ok [(JVal.jstr img, [(JVal.jstr mt, JVal.jarr scores)])]
    ∧ load_results [predict_write img mt scores] mt
      = .ok [(JVal.jstr img, [(JVal.jstr mt, JVal.jarr scores)])] := by
  constructor
  · simp [load_results, loadAll, loadOne, loadBody, getField, predict_write,
      setNested, setEntry]
  · by_cases hmt : mt = ("both").toList
    · subst hmt
      simp [load_results, loadAll, loadOne, loadBody, getField, predict_write,
        setNested, setEntry]
    · simp [load_results, loadAll, loadOne, loadBody, getField, predict_write,
        setNested, setEntry, hmt]

/-! ## C3: a corrupt record and the rest of the directory -/

/-- C3 counterexample.  The claim says an undecodable record is skipped with
a warning and the remaining records are still aggregated.  In fact
`load_results` has no exception handling: `json.load` raises on the first
undecodable file and the whole load aborts, so the perfectly decodable
`goodFile` is never aggregated. -/
theorem corrupt_record_counterexample :
    load_results [none, goodFile] (("both").toList) = .error .jsonDecode := by
  decide

/-- C3 (amended): an undecodable record aborts the entire load.  Whatever
decodable records follow it and whatever the variant filter is, the read
fails with the decode error and aggregates nothing. -/
theorem corrupt_record_aborts_load (rest : List JFile) (mtype : List Char) :
    load_results (none :: rest) mtype = .error .jsonDecode := rfl

/-! ## C4: rendering with zero, one or two variants -/

/-- C4 counterexample.  The claim says that with neither variant present the
renderer fails with `NoScoresAvailable`, the image is skipped and no artifact
is written.  In fact `visualize_image` runs none of its three branches, then
unconditionally calls `plt.savefig`: it raises nothing and writes an
empty-figure artifact file. -/
theorem empty_render_counterexample :
    visualize_image none none = (FigContent.emptyFigure, true) := rfl

/-- C4 (amended): the renderer is total on any subset of the two variants —
it never crashes on an absent variant and renders whatever is available —
but with neither variant present it does not fail: it writes an artifact
file anyway (as it does in every case), containing an empty figure. -/
theorem renderer_total (aesthetic technical : Option (List ℚ)) :
    (visualize_image aesthetic technical).2 = true
    ∧ ((visualize_image aesthetic technical).1 = FigContent.emptyFigure
        ↔ (aesthetic = none ∧ technical = none)) := by
  cases aesthetic <;> cases technical <;> simp [visualize_image]

/-! ## C9: the overall score -/

/-- C9: with both variants present the figure's text overlay states the
unweighted average of the two means; with exactly one variant present it
states that variant's mean alone. -/
theorem overall_score_shown (a t : List ℚ) :
    shownScore (visualize_image (some a) (some t)).1
      = some ((((calculate_mean_score a : ℚ) : ℝ)
                + ((calculate_mean_score t : ℚ) : ℝ)) / 2)
    ∧ shownScore (visualize_image (some a) none).1
      = some ((calculate_mean_score a : ℚ) : ℝ)
    ∧ shownScore (visualize_image none (some t)).1
      = some ((calculate_mean_score t : ℚ) : ℝ) :=
  ⟨rfl, rfl, rfl⟩

/-! ## C2: malformed distribution payloads -/

/-- A capture whose distribution line holds only two numbers. -/
def c2shortText : List Char :=
  ("===== Evaluating aesthetic quality\nEvaluating: photo1.jpg\nPredicted score distribution: [0.1, 0.2]").toList

/-- A capture whose distribution line holds a non-numeric token `1.2.3`. -/
def c2badText : List Char :=
  ("===== Evaluating aesthetic quality\nEvaluating: photo1.jpg\nPredicted score distribution: [1.2.3, 4]").toList

/-- C2 counterexample.  The claim says a payload that does not parse into
exactly 10 numbers is dropped and nothing is recorded for it.  In fact
`parse_results` never checks the count: a two-number payload is parsed and
the two-element distribution is stored. -/
theorem short_distribution_stored_counterexample :
    parse_results c2shortText
      = .ok [(("photo1.jpg").toList, [(("aesthetic").toList, [1/10, 1/5])])] := by
  decide

/-- C2 (amended): the parser performs no arity check and no local recovery.
A payload line whose comma-separated tokens all parse as floats is recorded
whatever their number — fewer than 10 numbers are stored as a short
distribution — and a token that is not numeric raises an uncaught
`ValueError` that aborts parsing entirely. -/
theorem malformed_distribution_behavior :
    parse_results c2shortText
      = .ok [(("photo1.jpg").toList, [(("aesthetic").toList, [1/10, 1/5])])]
    ∧ parse_results c2badText = .error .valueError :=
  ⟨by decide, by decide⟩

/-! ## C5: totality and bounds of the statistics engine -/

/-- Upper bound: a nonnegatively-weighted sum against weights bounded by
`hi` is at most `hi` times the total mass. -/
theorem sum_zipWith_mul_le (hi : ℚ) :
    ∀ (d r : List ℚ), (∀ x ∈ d, 0 ≤ x) → (∀ y ∈ r, y ≤ hi) →
      d.length ≤ r.length →
      (List.zipWith (fun s t => s * t) d r).sum ≤ hi * d.sum
  | [], _, _, _, _ => by simp
  | _ :: _, [], _, _, hlen => by simp at hlen
  | s :: ds, t :: ts, hd, hr, hlen => by
    have h1 : s * t ≤ s * hi :=
      mul_le_mul_of_nonneg_left (hr t (by simp)) (hd s (by simp))
    have h2 := sum_zipWith_mul_le hi ds ts (fun x hx => hd x (by simp [hx]))
      (fun y hy => hr y (by simp [hy])) (by simpa using hlen)
    simp only [List.zipWith_cons_cons, List.sum_cons]
    nlinarith [h1, h2]

/-- Lower bound: a nonnegatively-weighted sum against weights at least `lo`
is at least `lo` times the total mass. -/
theorem sum_zipWith_mul_ge (lo : ℚ) :
    ∀ (d r : List ℚ), (∀ x ∈ d, 0 ≤ x) → (∀ y ∈ r, lo ≤ y) →
      d.length ≤ r.length →
      lo * d.sum ≤ (List.zipWith (fun s t => s * t) d r).sum
  | [], _, _, _, _ => by simp
  | _ :: _, [], _, _, hlen => by simp at hlen
  | s :: ds, t :: ts, hd, hr, hlen => by
    have h1 : s * lo ≤ s * t :=
      mul_le_mul_of_nonneg_left (hr t (by simp)) (hd s (by simp))
    have h2 := sum_zipWith_mul_ge lo ds ts (fun x hx => hd x (by simp [hx]))
      (fun y hy => hr y (by simp [hy])) (by simpa using hlen)
    simp only [List.zipWith_cons_cons, List.sum_cons]
    nlinarith [h1, h2]

/-- C5: the statistics engine is total on every 10-element non-negative
distribution `d`: whenever `d` additionally sums to 1, `mean(d) ∈ [1, 10]`;
`dispersion(d) ≥ 0` for every such `d` (normalized or not); the all-zero
distribution has mean 0 and dispersion 0; and no normalization is applied
(the constant-1 distribution, of mass 10, has mean 55, not a value in
`[1, 10]`). -/
theorem statistics_engine_bounds (d : List ℚ) (hlen : d.length = 10)
    (hnn : ∀ x ∈ d, 0 ≤ x) :
    (d.sum = 1 → 1 ≤ calculate_mean_score d ∧ calculate_mean_score d ≤ 10)
    ∧ 0 ≤ calculate_std_score d
    ∧ calculate_mean_score (List.replicate 10 (0 : ℚ)) = 0
    ∧ calculate_std_score (List.replicate 10 (0 : ℚ)) = 0
    ∧ calculate_mean_score (List.replicate 10 (1 : ℚ)) = 55 := by
  have hrl : d.length ≤ ranks.length := by rw [hlen]; decide
  refine ⟨fun hsum => ⟨?_, ?_⟩, Real.sqrt_nonneg _, by decide, ?_, by decide⟩
  · have h := sum_zipWith_mul_ge 1 d ranks hnn (by decide) hrl
    simpa [calculate_mean_score, hsum] using h
  · have h := sum_zipWith_mul_le 10 d ranks hnn (by decide) hrl
    simpa [calculate_mean_score, hsum] using h
  · have hv : calculate_variance (List.replicate 10 (0 : ℚ)) = 0 := by decide
    unfold calculate_std_score
    rw [hv]
    simp

/-- C5 witness: the hypotheses and conclusion hold at the uniform
distribution. -/
theorem statistics_engine_bounds_witness :
    (uniformDist.sum = 1
      → 1 ≤ calculate_mean_score uniformDist
        ∧ calculate_mean_score uniformDist ≤ 10)
    ∧ 0 ≤ calculate_std_score uniformDist
    ∧ calculate_mean_score (List.replicate 10 (0 : ℚ)) = 0
    ∧ calculate_std_score (List.replicate 10 (0 : ℚ)) = 0
    ∧ calculate_mean_score (List.replicate 10 (1 : ℚ)) = 55 :=
  statistics_engine_bounds uniformDist (by decide) (by decide)

/-! ## Parser execution lemmas -/

/-- Splitting a separator-free string yields the single piece. -/
theorem splitOnChar_of_not_mem (sep : Char) (l : List Char) (h : sep ∉ l) :
    splitOnChar sep l = [l] := by
  induction l with
  | nil => rfl
  | cons c cs ih =>
    have hc : ¬ c = sep := fun e => h (by simp [e])
    have hcs : sep ∉ cs := fun e => h (by simp [e])
    simp [splitOnChar, hc, ih hcs]

/-- Splitting peels off a separator-free first piece. -/
theorem splitOnChar_append_sep (sep : Char) (l rest : List Char) (h : sep ∉ l) :
    splitOnChar sep (l ++ sep :: rest) = l :: splitOnChar sep rest := by
  induction l with
  | nil => simp [splitOnChar]
  | cons c cs ih =>
    have hc : ¬ c = sep := fun e => h (by simp [e])
    have hcs : sep ∉ cs := fun e => h (by simp [e])
    simp [splitOnChar, hc, ih hcs]

/-- `split('\n')` recovers the newline-free lines joined by `joinLines`. -/
theorem splitLines_joinLines : ∀ (ls : List (List Char)), ls ≠ [] →
    (∀ l ∈ ls, '\n' ∉ l) → splitOnChar '\n' (joinLines ls) = ls
  | [], h, _ => absurd rfl h
  | [l], _, hl => by
    simp [joinLines, splitOnChar_of_not_mem '\n' l (hl l (by simp))]
  | l :: l2 :: ls, _, hl => by
    have h1 : '\n' ∉ l := hl l (by simp)
    have h2 := splitLines_joinLines (l2 :: ls) (by simp)
      (fun x hx => hl x (by simp [hx]))
    simp [joinLines, splitOnChar_append_sep '\n' l _ h1, h2]

/-- Processing a concatenation of line lists runs them in sequence. -/
theorem processLines_append (st : PState) (xs ys : List (List Char)) :
    processLines st (xs ++ ys)
      = match processLines st xs with
        | .ok st1 => processLines st1 ys
        | .error e => .error e := by
  induction xs generalizing st with
  | nil => simp [processLines]
  | cons l ls ih =>
    simp only [List.cons_append, processLines]
    cases processLine st l with
    | ok st1 => simp [ih]
    | error e => simp

/-- A line matching the model header sets `current_model`. -/
theorem processLine_model (st : PState) (l w : List Char)
    (h : searchModel l = some w) :
    processLine st l = .ok { st with currentModel := some (strLower w) } := by
  unfold processLine
  rw [h]

/-- A line matching the image announcement sets `current_image`. -/
theorem processLine_image (st : PState) (l name : List Char)
    (hm : searchModel l = none) (hi : searchImage l = some name) :
    processLine st l = .ok { st with currentImage := some name } := by
  unfold processLine
  rw [hm, hi]

/-- A distribution line with both cursors set stores the parsed scores. -/
theorem processLine_score (st : PState) (l p : List Char) (ds : List ℚ)
    (img model : List Char)
    (hm : searchModel l = none) (hi : searchImage l = none)
    (hs : searchScore l = some p)
    (hci : st.currentImage = some img) (hcm : st.currentModel = some model)
    (hp : parseScores p = some ds) :
    processLine st l
      = .ok { st with results := setNested st.results img model ds } := by
  unfold processLine
  rw [hm, hi, hs, hci, hcm]
  simp [hp, hci, hcm]

/-- A distribution line with a missing cursor is dropped unchanged. -/
theorem processLine_score_dropped (res : Results) (ci cm : Option (List Char))
    (l p : List Char)
    (hm : searchModel l = none) (hi : searchImage l = none)
    (hs : searchScore l = some p)
    (hguard : ci = none ∨ cm = none) :
    processLine ⟨res, ci, cm⟩ l = .ok ⟨res, ci, cm⟩ := by
  unfold processLine
  rw [hm, hi, hs]
  rcases hguard with h | h
  · subst h; cases cm <;> rfl
  · subst h; cases ci <;> rfl

/-- A line matching none of the three patterns is ignored. -/
theorem processLine_other (st : PState) (l : List Char)
    (hm : searchModel l = none) (hi : searchImage l = none)
    (hs : searchScore l = none) :
    processLine st l = .ok st := by
  unfold processLine
  rw [hm, hi, hs]

/-- While no model header has been seen, the parser stores nothing: lines
free of model-header matches keep `current_model = None` and the results
empty. -/
theorem processLines_noModel : ∀ (ls : List (List Char)) (ci : Option (List Char)),
    (∀ l ∈ ls, searchModel l = none) →
    ∃ ci2, processLines ⟨[], ci, none⟩ ls = .ok ⟨[], ci2, none⟩
  | [], ci, _ => ⟨ci, rfl⟩
  | l :: ls, ci, hls => by
    have hm : searchModel l = none := hls l (by simp)
    have hrest : ∀ x ∈ ls, searchModel x = none := fun x hx => hls x (by simp [hx])
    rcases hi : searchImage l with _ | name
    · rcases hs : searchScore l with _ | p
      · have hpl := processLine_other (⟨[], ci, none⟩ : PState) l hm hi hs
        obtain ⟨ci2, h2⟩ := processLines_noModel ls ci hrest
        exact ⟨ci2, by simp only [processLines, hpl]; exact h2⟩
      · have hpl := processLine_score_dropped [] ci none l p hm hi hs (Or.inr rfl)
        obtain ⟨ci2, h2⟩ := processLines_noModel ls ci hrest
        exact ⟨ci2, by simp only [processLines, hpl]; exact h2⟩
    · have hpl := processLine_image (⟨[], ci, none⟩ : PState) l name hm hi
      obtain ⟨ci2, h2⟩ := processLines_noModel ls (some name) hrest
      exact ⟨ci2, by simp only [processLines, hpl]; exact h2⟩

/-- While no image announcement has been seen, the parser stores nothing:
lines free of image matches keep `current_image = None` and the results
empty. -/
theorem processLines_noImage : ∀ (ls : List (List Char)) (cm : Option (List Char)),
    (∀ l ∈ ls, searchImage l = none) →
    ∃ cm2, processLines ⟨[], none, cm⟩ ls = .ok ⟨[], none, cm2⟩
  | [], cm, _ => ⟨cm, rfl⟩
  | l :: ls, cm, hls => by
    have hi : searchImage l = none := hls l (by simp)
    have hrest : ∀ x ∈ ls, searchImage x = none := fun x hx => hls x (by simp [hx])
    rcases hm : searchModel l with _ | w
    · rcases hs : searchScore l with _ | p
      · have hpl := processLine_other (⟨[], none, cm⟩ : PState) l hm hi hs
        obtain ⟨cm2, h2⟩ := processLines_noImage ls cm hrest
        exact ⟨cm2, by simp only [processLines, hpl]; exact h2⟩
      · have hpl := processLine_score_dropped [] none cm l p hm hi hs (Or.inl rfl)
        obtain ⟨cm2, h2⟩ := processLines_noImage ls cm hrest
        exact ⟨cm2, by simp only [processLines, hpl]; exact h2⟩
    · have hpl := processLine_model (⟨[], none, cm⟩ : PState) l w hm
      obtain ⟨cm2, h2⟩ := processLines_noImage ls (some (strLower w)) hrest
      exact ⟨cm2, by simp only [processLines, hpl]; exact h2⟩

/-! ## C6: a distribution line with no preceding header -/

/-- C6: a well-formed distribution line appearing before any model-variant
header (or before any image announcement) has been seen is dropped without
error: the parse succeeds and produces zero records. -/
theorem orphan_distribution_dropped
    (pre : List (List Char)) (d p : List Char) (ds : List ℚ)
    (hnl : ∀ l ∈ pre, '\n' ∉ l) (hdnl : '\n' ∉ d)
    (hcase : (∀ l ∈ pre, searchModel l = none) ∨ (∀ l ∈ pre, searchImage l = none))
    (hdm : searchModel d = none) (hdi : searchImage d = none)
    (hds : searchScore d = some p) (hp : parseScores p = some ds) :
    parse_results (joinLines (pre ++ [d])) = .ok [] := by
  have hmem : ∀ l ∈ pre ++ [d], '\n' ∉ l := by
    intro l hl
    rcases List.mem_append.1 hl with h | h
    · exact hnl l h
    · simp only [List.mem_singleton] at h
      subst h
      exact hdnl
  unfold parse_results
  rw [splitLines_joinLines (pre ++ [d]) (by simp) hmem, processLines_append]
  have hinit : initState = (⟨[], none, none⟩ : PState) := rfl
  rw [hinit]
  rcases hcase with hA | hB
  · obtain ⟨ci2, h1⟩ := processLines_noModel pre none hA
    rw [h1]
    have hpl := processLine_score_dropped [] ci2 none d p hdm hdi hds (Or.inr rfl)
    simp [processLines, hpl, Except.map]
  · obtain ⟨cm2, h1⟩ := processLines_noImage pre none hB
    rw [h1]
    have hpl := processLine_score_dropped [] none cm2 d p hdm hdi hds (Or.inl rfl)
    simp [processLines, hpl, Except.map]

/-- C6 witness: a log line followed by an orphan well-formed distribution
line parses into zero records. -/
theorem orphan_distribution_dropped_witness :
    parse_results (joinLines [("some log line").toList,
      ("Predicted score distribution: [0.1, 0.1, 0.1, 0.1, 0.1, 0.1, 0.1, 0.1, 0.1, 0.1]").toList])
      = .ok [] :=
  orphan_distribution_dropped [("some log line").toList]
    (("Predicted score distribution: [0.1, 0.1, 0.1, 0.1, 0.1, 0.1, 0.1, 0.1, 0.1, 0.1]").toList)
    (("0.1, 0.1, 0.1, 0.1, 0.1, 0.1, 0.1, 0.1, 0.1, 0.1").toList)
    uniformDist
    (by decide) (by decide) (Or.inl (by decide)) (by decide) (by decide)
    (by decide) (by decide)

/-! ## C7: parser state persistence across images -/

/-- C7: one model-variant header followed by two image announcements, each
with its own well-formed distribution line, attributes both distributions to
that same (lower-cased) variant; each image announcement updates the
attribution target without a new header line. -/
theorem parser_state_persistence
    (hl il1 sl1 il2 sl2 : List Char) (w i1 i2 p1 p2 : List Char) (d1 d2 : List ℚ)
    (hnl : ∀ l ∈ [hl, il1, sl1, il2, sl2], '\n' ∉ l)
    (hm0 : searchModel hl = some w)
    (hm1 : searchModel il1 = none) (hi1 : searchImage il1 = some i1)
    (hm2 : searchModel sl1 = none) (hi2 : searchImage sl1 = none)
    (hs1 : searchScore sl1 = some p1) (hp1 : parseScores p1 = some d1)
    (hm3 : searchModel il2 = none) (hi3 : searchImage il2 = some i2)
    (hm4 : searchModel sl2 = none) (hi4 : searchImage sl2 = none)
    (hs2 : searchScore sl2 = some p2) (hp2 : parseScores p2 = some d2)
    (hne : i1 ≠ i2) :
    parse_results (joinLines [hl, il1, sl1, il2, sl2])
      = .ok [(i1, [(strLower w, d1)]), (i2, [(strLower w, d2)])] := by
  unfold parse_results
  rw [splitLines_joinLines _ (by simp) hnl]
  have hinit : initState = (⟨[], none, none⟩ : PState) := rfl
  rw [hinit]
  have e1 := processLine_model (⟨[], none, none⟩ : PState) hl w hm0
  have e2 := processLine_image (⟨[], none, some (strLower w)⟩ : PState) il1 i1 hm1 hi1
  have e3 := processLine_score (⟨[], some i1, some (strLower w)⟩ : PState) sl1 p1 d1
    i1 (strLower w) hm2 hi2 hs1 rfl rfl hp1
  have e4 := processLine_image
    (⟨[(i1, [(strLower w, d1)])], some i1, some (strLower w)⟩ : PState) il2 i2 hm3 hi3
  have e5 := processLine_score
    (⟨[(i1, [(strLower w, d1)])], some i2, some (strLower w)⟩ : PState) sl2 p2 d2
    i2 (strLower w) hm4 hi4 hs2 rfl rfl hp2
  simp only [setNested, setEntry] at e3 e5
  simp only [processLines, e1, e2, e3, e4, e5, setNested, setEntry, hne,
    if_false, Except.map]

/-- C7 witness: a concrete capture with one header and two images. -/
theorem parser_state_persistence_witness :
    parse_results (joinLines [("===== Evaluating aesthetic quality").toList,
      ("Evaluating: a.jpg").toList,
      ("Predicted score distribution: [0.1, 0.2]").toList,
      ("Evaluating: b.jpg").toList,
      ("Predicted score distribution: [0.3, 0.4]").toList])
      = .ok [(("a.jpg").toList, [(("aesthetic").toList, [1/10, 1/5])]),
             (("b.jpg").toList, [(("aesthetic").toList, [3/10, 2/5])])] := by
  have h := parser_state_persistence
    (("===== Evaluating aesthetic quality").toList)
    (("Evaluating: a.jpg").toList)
    (("Predicted score distribution: [0.1, 0.2]").toList)
    (("Evaluating: b.jpg").toList)
    (("Predicted score distribution: [0.3, 0.4]").toList)
    (("aesthetic").toList) (("a.jpg").toList) (("b.jpg").toList)
    (("0.1, 0.2").toList) (("0.3, 0.4").toList)
    ([1/10, 1/5]) ([3/10, 2/5])
    (by decide) (by decide) (by decide) (by decide) (by decide) (by decide)
    (by decide) (by decide) (by decide) (by decide) (by decide) (by decide)
    (by decide) (by decide) (by decide)
  have hsl : strLower (("aesthetic").toList) = ("aesthetic").toList := by decide
  rw [hsl] at h
  exact h

/-! ## C8: last write wins for a duplicated key -/

/-- C8: when the same (image, variant) key receives a well-formed
distribution line twice, the parser silently overwrites: the later
distribution is the only one stored under the key, and the earlier one
appears nowhere in the output mapping. -/
theorem last_write_wins
    (hl il sl1 sl2 : List Char) (w i p1 p2 : List Char) (d1 d2 : List ℚ)
    (hnl : ∀ l ∈ [hl, il, sl1, sl2], '\n' ∉ l)
    (hm0 : searchModel hl = some w)
    (hm1 : searchModel il = none) (hi1 : searchImage il = some i)
    (hm2 : searchModel sl1 = none) (hi2 : searchImage sl1 = none)
    (hs1 : searchScore sl1 = some p1) (hp1 : parseScores p1 = some d1)
    (hm3 : searchModel sl2 = none) (hi3 : searchImage sl2 = none)
    (hs2 : searchScore sl2 = some p2) (hp2 : parseScores p2 = some d2)
    (hne : d1 ≠ d2) :
    parse_results (joinLines [hl, il, sl1, sl2])
      = .ok [(i, [(strLower w, d2)])]
    ∧ ∀ ms, (i, ms) ∈ ([(i, [(strLower w, d2)])] : Results)
        → (strLower w, d1) ∉ ms := by
  constructor
  · unfold parse_results
    rw [splitLines_joinLines _ (by simp) hnl]
    have hinit : initState = (⟨[], none, none⟩ : PState) := rfl
    rw [hinit]
    have e1 := processLine_model (⟨[], none, none⟩ : PState) hl w hm0
    have e2 := processLine_image (⟨[], none, some (strLower w)⟩ : PState) il i hm1 hi1
    have e3 := processLine_score (⟨[], some i, some (strLower w)⟩ : PState) sl1 p1 d1
      i (strLower w) hm2 hi2 hs1 rfl rfl hp1
    have e4 := processLine_score
      (⟨[(i, [(strLower w, d1)])], some i, some (strLower w)⟩ : PState) sl2 p2 d2
      i (strLower w) hm3 hi3 hs2 rfl rfl hp2
    simp only [setNested, setEntry] at e3 e4
    simp only [processLines, e1, e2, e3, e4, Except.map]
    simp
  · intro ms hms hmem
    simp only [List.mem_singleton, Prod.mk.injEq, true_and] at hms
    subst hms
    simp only [List.mem_singleton, Prod.mk.injEq, true_and] at hmem
    exact hne hmem

/-- C8 witness: a concrete capture writing the same key twice keeps only the
second distribution. -/
theorem last_write_wins_witness :
    parse_results (joinLines [("===== Evaluating technical quality").toList,
      ("Evaluating: a.jpg").toList,
      ("Predicted score distribution: [0.1, 0.2]").toList,
      ("Predicted score distribution: [0.3, 0.4]").toList])
      = .ok [(("a.jpg").toList, [(("technical").toList, [3/10, 2/5])])]
    ∧ ∀ ms, (("a.jpg").toList, ms)
          ∈ ([(("a.jpg").toList, [(("technical").toList, [3/10, 2/5])])] : Results)
        → (("technical").toList, ([1/10, 1/5] : List ℚ)) ∉ ms := by
  have h := last_write_wins
    (("===== Evaluating technical quality").toList)
    (("Evaluating: a.jpg").toList)
    (("Predicted score distribution: [0.1, 0.2]").toList)
    (("Predicted score distribution: [0.3, 0.4]").toList)
    (("technical").toList) (("a.jpg").toList)
    (("0.1, 0.2").toList) (("0.3, 0.4").toList)
    ([1/10, 1/5]) ([3/10, 2/5])
    (by decide) (by decide) (by decide) (by decide) (by decide) (by decide)
    (by decide) (by decide) (by decide) (by decide) (by decide) (by decide)
    (by decide)
  have hsl : strLower (("technical").toList) = ("technical").toList := by decide
  rw [hsl] at h
  exact h

/-! ## C10: which variant keys can occur -/

/-- The input text announced by the C10 counterexample: the header word is
`overall`, which the parser accepts like any other word. -/
def c10text : List Char :=
  ("===== Evaluating overall quality\nEvaluating: photo1.jpg\nPredicted score distribution: [0.1, 0.1, 0.1, 0.1, 0.1, 0.1, 0.1, 0.1, 0.1, 0.1]").toList

/-- C10 counterexample.  The claim says every record's `model_variant` is one
of the two enumerated values `aesthetic` or `technical`.  In fact the model
header regex captures any word: a capture whose header names the variant
`overall` produces a record under the key `overall`. -/
theorem variant_not_enumerated_counterexample :
    parse_results c10text
      = .ok [(("photo1.jpg").toList, [(("overall").toList, uniformDist)])]
    ∧ ("overall").toList ≠ ("aesthetic").toList
    ∧ ("overall").toList ≠ ("technical").toList :=
  ⟨by decide, by decide, by decide⟩

/-- `m` is the lower-cased word captured from a model-header line of the
input. -/
def VariantFromHeader (lines : List (List Char)) (m : List Char) : Prop :=
  ∃ l ∈ lines, ∃ w, searchModel l = some w ∧ m = strLower w

/-- Membership after a `dict` assignment: the element was already present or
is the assigned pair. -/
theorem mem_setEntry {κ ν : Type} [DecidableEq κ] :
    ∀ (l : List (κ × ν)) (k : κ) (v : ν) (q : κ × ν),
      q ∈ setEntry l k v → q ∈ l ∨ q = (k, v)
  | [], k, v, q => by simp [setEntry]
  | (k0, v0) :: rest, k, v, q => by
    simp only [setEntry]
    by_cases h : k0 = k
    · rw [if_pos h]
      intro hq
      rcases List.mem_cons.1 hq with h1 | h1
      · exact Or.inr h1
      · exact Or.inl (List.mem_cons_of_mem _ h1)
    · rw [if_neg h]
      intro hq
      rcases List.mem_cons.1 hq with h1 | h1
      · exact Or.inl (h1 ▸ List.mem_cons_self _ _)
      · rcases mem_setEntry rest k v q h1 with h2 | h2
        · exact Or.inl (List.mem_cons_of_mem _ h2)
        · exact Or.inr h2

/-- A property of all stored variant keys is preserved by a nested store of
a key satisfying it. -/
theorem setNested_models (Q : List Char → Prop) :
    ∀ (r : Results) (img m : List Char) (v : List ℚ),
      (∀ p ∈ r, ∀ q ∈ p.2, Q q.1) → Q m →
      ∀ p ∈ setNested r img m v, ∀ q ∈ p.2, Q q.1
  | [], img, m, v, _, hm => by
    intro p hp q hq
    simp only [setNested, List.mem_singleton] at hp
    subst hp
    simp only [List.mem_singleton] at hq
    subst hq
    exact hm
  | (k0, ms) :: rest, img, m, v, h, hm => by
    intro p hp q hq
    simp only [setNested] at hp
    by_cases hk : k0 = img
    · rw [if_pos hk] at hp
      rcases List.mem_cons.1 hp with h1 | h1
      · subst h1
        rcases mem_setEntry ms m v q hq with h2 | h2
        · exact h (k0, ms) (List.mem_cons_self _ _) q h2
        · subst h2
          exact hm
      · exact h p (List.mem_cons_of_mem _ h1) q hq
    · rw [if_neg hk] at hp
      rcases List.mem_cons.1 hp with h1 | h1
      · subst h1
        exact h (k0, ms) (List.mem_cons_self _ _) q hq
      · exact setNested_models Q rest img m v
          (fun x hx => h x (List.mem_cons_of_mem _ hx)) hm p h1 q hq

/-- Invariant of the parser loop: every stored variant key and the current
model cursor satisfy any property `Q` that holds of the lower-casing of
every header word in the remaining lines. -/
theorem processLines_models (Q : List Char → Prop) :
    ∀ (ls : List (List Char)) (st st2 : PState),
      (∀ l ∈ ls, ∀ w, searchModel l = some w → Q (strLower w)) →
      (∀ m, st.currentModel = some m → Q m) →
      (∀ p ∈ st.results, ∀ q ∈ p.2, Q q.1) →
      processLines st ls = .ok st2 →
      (∀ m, st2.currentModel = some m → Q m)
        ∧ (∀ p ∈ st2.results, ∀ q ∈ p.2, Q q.1)
  | [], st, st2, _, hcm, hres, h => by
    simp only [processLines, Except.ok.injEq] at h
    subst h
    exact ⟨hcm, hres⟩
  | l :: ls, st, st2, hQ, hcm, hres, h => by
    have hQl : ∀ w, searchModel l = some w → Q (strLower w) :=
      fun w hw => hQ l (by simp) w hw
    have hQrest : ∀ x ∈ ls, ∀ w, searchModel x = some w → Q (strLower w) :=
      fun x hx => hQ x (by simp [hx])
    simp only [processLines] at h
    obtain ⟨res, ci, cm⟩ := st
    cases hpl : processLine ⟨res, ci, cm⟩ l with
    | error e => rw [hpl] at h; simp at h
    | ok st1 =>
      rw [hpl] at h
      have h2 : processLines st1 ls = .ok st2 := h
      have hinv : (∀ m, st1.currentModel = some m → Q m)
          ∧ (∀ p ∈ st1.results, ∀ q ∈ p.2, Q q.1) := by
        rcases hm : searchModel l with _ | w
        · rcases hi : searchImage l with _ | name
          · rcases hs : searchScore l with _ | p
            · have e := processLine_other (⟨res, ci, cm⟩ : PState) l hm hi hs
              rw [e] at hpl
              simp only [Except.ok.injEq] at hpl
              subst hpl
              exact ⟨hcm, hres⟩
            · rcases ci with _ | img
              · have e := processLine_score_dropped res none cm l p hm hi hs
                  (Or.inl rfl)
                rw [e] at hpl
                simp only [Except.ok.injEq] at hpl
                subst hpl
                exact ⟨hcm, hres⟩
              · rcases cm with _ | mdl
                · have e := processLine_score_dropped res (some img) none l p
                    hm hi hs (Or.inr rfl)
                  rw [e] at hpl
                  simp only [Except.ok.injEq] at hpl
                  subst hpl
                  exact ⟨hcm, hres⟩
                · rcases hps : parseScores p with _ | ds
                  · have e : processLine (⟨res, some img, some mdl⟩ : PState) l
                        = .error .valueError := by
                      unfold processLine
                      rw [hm, hi, hs]
                      simp [hps]
                    rw [e] at hpl
                    exact Except.noConfusion hpl
                  · have e := processLine_score (⟨res, some img, some mdl⟩ : PState)
                      l p ds img mdl hm hi hs rfl rfl hps
                    rw [e] at hpl
                    simp only [Except.ok.injEq] at hpl
                    subst hpl
                    refine ⟨?_, ?_⟩
                    · intro m hmm
                      simp only [Option.some.injEq] at hmm
                      subst hmm
                      exact hcm mdl rfl
                    · exact setNested_models Q res img mdl ds hres (hcm mdl rfl)
          · have e := processLine_image (⟨res, ci, cm⟩ : PState) l name hm hi
            rw [e] at hpl
            simp only [Except.ok.injEq] at hpl
            subst hpl
            exact ⟨hcm, hres⟩
        · have e := processLine_model (⟨res, ci, cm⟩ : PState) l w hm
          rw [e] at hpl
          simp only [Except.ok.injEq] at hpl
          subst hpl
          refine ⟨?_, hres⟩
          intro m hmm
          simp only [Option.some.injEq] at hmm
          subst hmm
          exact hQl w hm
      exact processLines_models Q ls st1 st2 hQrest hinv.1 hinv.2 h2

/-- C10 (amended): every record's `model_variant` is the lower-casing of a
word captured from some model-header line of the input — not restricted to
the two enumerated values `aesthetic` and `technical` (see the
counterexample, which produces a record under `overall`). -/
theorem variant_from_header (text : List Char) (r : Results)
    (h : parse_results text = .ok r) :
    ∀ p ∈ r, ∀ q ∈ p.2, VariantFromHeader (splitOnChar '\n' text) q.1 := by
  unfold parse_results at h
  rcases hpr : processLines initState (splitOnChar '\n' text) with e | st2
  · rw [hpr] at h
    simp [Except.map] at h
  · rw [hpr] at h
    simp only [Except.map, Except.ok.injEq] at h
    subst h
    have hmain := processLines_models (VariantFromHeader (splitOnChar '\n' text))
      (splitOnChar '\n' text) initState st2
      (fun l hl w hw => ⟨l, hl, w, hw, rfl⟩)
      (fun m hm => by simp [initState] at hm)
      (fun p hp => by simp [initState] at hp)
      hpr
    exact hmain.2

/-- C10 witness: the record produced by the `overall` header indeed carries
a variant key captured from a header line. -/
theorem variant_from_header_witness :
    VariantFromHeader (splitOnChar '\n' c10text) (("overall").toList) := by
  have h := variant_from_header c10text
    [(("photo1.jpg").toList, [(("overall").toList, uniformDist)])] (by decide)
  exact h ((("photo1.jpg").toList, [(("overall").toList, uniformDist)]))
    (by decide) ((("overall").toList, uniformDist)) (by decide)

end Theorems

end NIMA
